import Mathlib

/-!
# FAT12/16 VFAT long-file-name (LFN) subsystem — a shallow embedding

The repository ships the unit-test suite `tools/diskimage/test-lfn.js`,
which exercises the `DiskInfo` LFN routines (`needsLFN`,
`getLFNEntryCount`, `buildLFNChecksum`, `buildLFNEntries`,
`getTotalDirEntries`, `buildDiskFromFiles`).  The `DiskInfo`
implementation itself is not part of the source tree given here, so the
definitions below are modelled from the specification, and validated
against the concrete values asserted by the test suite.

Names are modelled as lists of UCS-2 code units (natural numbers).
Buffers are lists of bytes (natural numbers below 256 where the code
writes bytes).
-/

namespace LFN

/-- Modelled from the spec: the DOS-legal 8.3 character set used by the
missing `DiskInfo.needsLFN`: uppercase letters, digits, and the permitted
punctuation subset; spaces, lowercase letters and characters such as
plus or square brackets are illegal. -/
def isLegalDOSChar (c : Nat) : Bool :=
  (decide (65 ≤ c) && decide (c ≤ 90)) ||
  (decide (48 ≤ c) && decide (c ≤ 57)) ||
  c == 33 || c == 35 || c == 36 || c == 37 || c == 38 || c == 39 ||
  c == 40 || c == 41 || c == 45 || c == 64 || c == 94 || c == 95 ||
  c == 96 || c == 123 || c == 125 || c == 126

/-- Base component of a filename: the code units before the first dot
(code 46). -/
def baseOf (name : List Nat) : List Nat :=
  name.takeWhile (fun c => c != 46)

/-- Extension of a filename: the code units after the first dot. -/
def extOf (name : List Nat) : List Nat :=
  name.drop ((baseOf name).length + 1)

/-- Modelled from the spec: `DiskInfo.needsLFN` (implementation missing
from the tree).  `false` when the name — or the special entries `.` and
`..` — satisfies all 8.3 rules: base length at most 8, extension length
at most 3, only DOS-legal characters (the legal set contains no
lowercase letters and no spaces, so "entirely uppercase" is subsumed),
and at most one dot.  `true` otherwise. -/
def needsLFN (name : List Nat) : Bool :=
  if name = [46] ∨ name = [46, 46] then false
  else
    !(decide (name.countP (fun c => c == 46) ≤ 1) &&
      decide ((baseOf name).length ≤ 8) &&
      decide ((extOf name).length ≤ 3) &&
      (baseOf name ++ extOf name).all isLegalDOSChar)

/-- Modelled from the spec: `DiskInfo.getLFNEntryCount` (implementation
missing from the tree): 0 when no LFN is needed, otherwise the number of
13-code-unit chunks, `ceil(length / 13)`. -/
def getLFNEntryCount (name : List Nat) : Nat :=
  if needsLFN name then (name.length + 12) / 13 else 0

/-- ASCII uppercasing of one code unit. -/
def toUpperCode (c : Nat) : Nat :=
  if 97 ≤ c ∧ c ≤ 122 then c - 32 else c

/-- Space-pad (code 32) a field to `k` code units, truncating if longer. -/
def padTo (k : Nat) (xs : List Nat) : List Nat :=
  xs.take k ++ List.replicate (k - xs.length) 32

/-- The 11-byte DOS-canonical short-name form: uppercase base space-padded
to 8 bytes followed by the extension space-padded to 3 bytes. -/
def shortName11 (name : List Nat) : List Nat :=
  padTo 8 (baseOf (name.map toUpperCode)) ++ padTo 3 (extOf (name.map toUpperCode))

/-- One step of the LFN checksum recurrence:
`sum = (((sum & 1) << 7) + (sum >> 1) + byte) & 0xFF`. -/
def checksumStep (sum b : Nat) : Nat :=
  ((sum % 2) * 128 + sum / 2 + b) % 256

/-- The checksum recurrence iterated once per byte, written as plain
recursion (the loop of the reference algorithm). -/
def checksumRun : Nat → List Nat → Nat
  | s, [] => s
  | s, b :: bs => checksumRun (checksumStep s b) bs

/-- Modelled from the spec: `DiskInfo.buildLFNChecksum` (implementation
missing from the tree): the recurrence folded over the 11-byte padded
short-name form, starting from 0. -/
def buildLFNChecksum (name : List Nat) : Nat :=
  (shortName11 name).foldl checksumStep 0

/-- Number of 13-code-unit chunks needed for a long name:
`ceil(length / 13)`. -/
def chunkCount (name : List Nat) : Nat :=
  (name.length + 12) / 13

/-- The long name extended to a whole number of 13-code-unit chunks: when
the length is not a multiple of 13, the first unused slot holds the
0x0000 terminator and every remaining slot holds 0xFFFF, per the VFAT
convention. -/
def paddedName (name : List Nat) : List Nat :=
  if name.length % 13 = 0 then name
  else name ++ 0 :: List.replicate (13 * chunkCount name - name.length - 1) 65535

/-- The `k`-th (0-based) 13-code-unit chunk of the padded long name. -/
def chunkAt (name : List Nat) (k : Nat) : List Nat :=
  ((paddedName name).drop (13 * k)).take 13

/-- Byte `i` of one 32-byte VFAT LFN directory entry, transcribing the
fixed layout table of the specification: offset 0 ordinal/flag byte,
offsets 1-10 name slots 0-4 as little-endian UCS-2, offset 11 attribute
0x0F, offset 12 reserved 0, offset 13 checksum, offsets 14-25 name
slots 5-10, offsets 26-27 starting cluster 0x0000, offsets 28-31 name
slots 11-12. -/
def entryByteAt (b0 cks : Nat) (c : List Nat) (i : Nat) : Nat :=
  if i = 0 then b0
  else if i < 11 then
    (if (i - 1) % 2 = 0 then (c.getD ((i - 1) / 2) 0) % 256
     else (c.getD ((i - 1) / 2) 0) / 256)
  else if i = 11 then 15
  else if i = 12 then 0
  else if i = 13 then cks
  else if i < 26 then
    (if (i - 14) % 2 = 0 then (c.getD (5 + (i - 14) / 2) 0) % 256
     else (c.getD (5 + (i - 14) / 2) 0) / 256)
  else if i < 28 then 0
  else if i < 32 then
    (if (i - 28) % 2 = 0 then (c.getD (11 + (i - 28) / 2) 0) % 256
     else (c.getD (11 + (i - 28) / 2) 0) / 256)
  else 0

/-- One 32-byte VFAT LFN directory entry holding the 13-code-unit chunk
`c`, with ordinal/flag byte `b0` and checksum byte `cks`. -/
def lfnEntry32 (b0 cks : Nat) (c : List Nat) : List Nat :=
  (List.range 32).map (entryByteAt b0 cks c)

/-- The LFN entries of one file in the order they are written: the entry
written first carries ordinal `chunkCount` with bit 0x40 set and holds
the tail chunk of the name; ordinals then decrease down to 1, which
holds the first 13 code units. -/
def lfnEntries (ln sn : List Nat) : List (List Nat) :=
  (List.range (chunkCount ln)).map (fun k =>
    lfnEntry32 ((if k = 0 then 64 else 0) + (chunkCount ln - k))
      (buildLFNChecksum sn) (chunkAt ln (chunkCount ln - 1 - k)))

/-- Modelled from the spec: `DiskInfo.buildLFNEntries` (implementation
missing from the tree).  Serializes the LFN entries into the buffer at
`offset` and returns the updated buffer together with the number of
bytes written. -/
def buildLFNEntries (buf : List Nat) (offset : Nat) (ln sn : List Nat) :
    List Nat × Nat :=
  let d := (lfnEntries ln sn).flatten
  (buf.take offset ++ d ++ buf.drop (offset + d.length), d.length)

/-- Byte offset, inside one 32-byte LFN entry, of the low byte of the
`u`-th (0-based) UCS-2 slot: slots 0-4 live at bytes 1-10, slots 5-10 at
bytes 14-25, slots 11-12 at bytes 28-31. -/
def ucs2Off (u : Nat) : Nat :=
  if u < 5 then 1 + 2 * u
  else if u < 11 then 14 + 2 * (u - 5)
  else 28 + 2 * (u - 11)

/-- A directory file record as consumed by the layout planner: a long
name and a DOS attribute byte. -/
structure FileRecord where
  name : List Nat
  attr : Nat
deriving DecidableEq

/-- Directory entries consumed by one file record: a volume label
(attribute bit 0x08) or an 8.3-clean name takes a single short-name
entry; any other name takes its LFN entries plus the short-name entry. -/
def dirEntriesFor (r : FileRecord) : Nat :=
  if r.attr &&& 8 ≠ 0 then 1
  else if needsLFN r.name then getLFNEntryCount r.name + 1
  else 1

/-- Modelled from the spec: `DiskInfo.getTotalDirEntries` (implementation
missing from the tree): sums the per-record directory-entry consumption. -/
def getTotalDirEntries : List FileRecord → Nat
  | [] => 0
  | r :: rs => dirEntriesFor r + getTotalDirEntries rs

/- Concrete filenames used by the repository's test suite, as code-unit
lists. -/

/-- "FILE.TXT" -/
def nmFILETXT : List Nat := [70, 73, 76, 69, 46, 84, 88, 84]

/-- "README.MD" -/
def nmREADMEMD : List Nat := [82, 69, 65, 68, 77, 69, 46, 77, 68]

/-- "12345678.123" -/
def nmDigits83 : List Nat := [49, 50, 51, 52, 53, 54, 55, 56, 46, 49, 50, 51]

/-- "A" -/
def nmA : List Nat := [65]

/-- "." -/
def nmDot : List Nat := [46]

/-- ".." -/
def nmDotDot : List Nat := [46, 46]

/-- "TEST" -/
def nmTEST : List Nat := [84, 69, 83, 84]

/-- "longfilename.txt" (16 code units) -/
def nmLongfilename : List Nat :=
  [108, 111, 110, 103, 102, 105, 108, 101, 110, 97, 109, 101, 46, 116, 120, 116]

/-- "file.text" -/
def nmFileText : List Nat := [102, 105, 108, 101, 46, 116, 101, 120, 116]

/-- "My File.txt" (11 code units) -/
def nmMyFile : List Nat := [77, 121, 32, 70, 105, 108, 101, 46, 116, 120, 116]

/-- "file.TXT" -/
def nmFileUpperExt : List Nat := [102, 105, 108, 101, 46, 84, 88, 84]

/-- "FILE.txt" -/
def nmUpperFileLowerExt : List Nat := [70, 73, 76, 69, 46, 116, 120, 116]

/-- "A Tale Of Two Cities.txt" (24 code units) -/
def nmATale : List Nat :=
  [65, 32, 84, 97, 108, 101, 32, 79, 102, 32, 84, 119, 111, 32, 67, 105,
   116, 105, 101, 115, 46, 116, 120, 116]

/-- "test+file.txt" -/
def nmTestPlus : List Nat :=
  [116, 101, 115, 116, 43, 102, 105, 108, 101, 46, 116, 120, 116]

/-- "file[1].txt" -/
def nmFileBracket : List Nat :=
  [102, 105, 108, 101, 91, 49, 93, 46, 116, 120, 116]

/-- "1234567890123" (13 code units) -/
def nmDigits13 : List Nat := [49, 50, 51, 52, 53, 54, 55, 56, 57, 48, 49, 50, 51]

/-- "12345678901234" (14 code units) -/
def nmDigits14 : List Nat :=
  [49, 50, 51, 52, 53, 54, 55, 56, 57, 48, 49, 50, 51, 52]

/-- "12345678901234567890123456" (26 code units) -/
def nmDigits26 : List Nat :=
  [49, 50, 51, 52, 53, 54, 55, 56, 57, 48, 49, 50, 51, 52, 53, 54, 55, 56,
   57, 48, 49, 50, 51, 52, 53, 54]

/-- "123456789012345678901234567" (27 code units) -/
def nmDigits27 : List Nat :=
  [49, 50, 51, 52, 53, 54, 55, 56, 57, 48, 49, 50, 51, 52, 53, 54, 55, 56,
   57, 48, 49, 50, 51, 52, 53, 54, 55]

/-- "A TALE O.TXT" -/
def nmATALEO : List Nat := [65, 32, 84, 65, 76, 69, 32, 79, 46, 84, 88, 84]

/-- "SHORT.DAT" -/
def nmSHORTDAT : List Nat := [83, 72, 79, 82, 84, 46, 68, 65, 84]

/-- "My Document.doc" (15 code units) -/
def nmMyDocument : List Nat :=
  [77, 121, 32, 68, 111, 99, 117, 109, 101, 110, 116, 46, 100, 111, 99]

/-- "MYLABEL" -/
def nmMYLABEL : List Nat := [77, 89, 76, 65, 66, 69, 76]

/-- "FILE1.TXT" -/
def nmFILE1 : List Nat := [70, 73, 76, 69, 49, 46, 84, 88, 84]

/-- "FILE2.TXT" -/
def nmFILE2 : List Nat := [70, 73, 76, 69, 50, 46, 84, 88, 84]

/-- "FILE3.TXT" -/
def nmFILE3 : List Nat := [70, 73, 76, 69, 51, 46, 84, 88, 84]

/-- "Test.txt" (8 code units) -/
def nmTestTxt : List Nat := [84, 101, 115, 116, 46, 116, 120, 116]

/-- "TEST.TXT" -/
def nmTESTTXT : List Nat := [84, 69, 83, 84, 46, 84, 88, 84]

/-- A host file as enumerated by the filesystem collaborator: name,
attribute byte and content bytes. -/
structure HostFile where
  name : List Nat
  attr : Nat
  content : List Nat

/-- A floppy-disk geometry: cylinders, heads, sectors per track. -/
structure DiskGeometry where
  cyls : Nat
  heads : Nat
  secs : Nat
deriving DecidableEq

/-- A built disk image: an ordered sequence of cylinders, each an ordered
sequence of heads, each an ordered sequence of 512-byte sectors. -/
structure DiskImage where
  cylinders : List (List (List (List Nat)))

/-- The standard floppy geometries the assembler chooses from, smallest
first (160K up to 1.44M). -/
def stdGeometries : List DiskGeometry :=
  [⟨40, 1, 8⟩, ⟨40, 2, 8⟩, ⟨40, 2, 9⟩, ⟨80, 2, 9⟩, ⟨80, 2, 15⟩, ⟨80, 2, 18⟩]

/-- Total byte capacity of a geometry. -/
def diskCapacity (g : DiskGeometry) : Nat :=
  g.cyls * g.heads * g.secs * 512

/-- Fixed root-directory capacity used by the model, in 32-byte entries. -/
def rootDirCapacity : Nat := 224

/-- The 32-byte short-name directory entry of one file: 11-byte padded
short name, attribute byte, and zeroed remaining fields. -/
def shortEntry32 (f : HostFile) : List Nat :=
  shortName11 f.name ++ f.attr :: List.replicate 20 0

/-- The directory region: per file, the LFN entries (unless the file is a
volume label or 8.3-clean) followed by its short-name entry. -/
def dirRegion : List HostFile → List Nat
  | [] => []
  | f :: fs =>
    (if f.attr &&& 8 ≠ 0 then shortEntry32 f
     else if needsLFN f.name then
       (lfnEntries f.name f.name).flatten ++ shortEntry32 f
     else shortEntry32 f) ++ dirRegion fs

/-- Boot sector: 512 bytes ending in the 0x55 0xAA signature. -/
def bootBytes : List Nat :=
  List.replicate 510 0 ++ [85, 170]

/-- Two 9-sector FAT copies with the standard reserved markers. -/
def fatBytes : List Nat :=
  240 :: 255 :: 255 :: List.replicate (2 * 9 * 512 - 3) 0

/-- The serialized byte stream of the volume: boot sector, FAT copies,
directory region, then the concatenated file contents. -/
def imageStream (recs : List HostFile) : List Nat :=
  bootBytes ++ fatBytes ++ dirRegion recs ++ (recs.map HostFile.content).flatten

/-- A geometry fits when the directory region respects the fixed
root-directory capacity and the whole stream fits the disk. -/
def fitsGeometry (g : DiskGeometry) (recs : List HostFile) : Bool :=
  decide (getTotalDirEntries (recs.map (fun f => FileRecord.mk f.name f.attr)) ≤
    rootDirCapacity) &&
  decide ((imageStream recs).length ≤ diskCapacity g)

/-- Sector `i` of the serialized stream, zero-padded to 512 bytes. -/
def mkSector (stream : List Nat) (i : Nat) : List Nat :=
  (List.range 512).map (fun j => stream.getD (512 * i + j) 0)

/-- Lays the serialized stream out over the geometry as
cylinders / heads / sectors. -/
def assembleImage (g : DiskGeometry) (recs : List HostFile) : DiskImage :=
  DiskImage.mk ((List.range g.cyls).map (fun c =>
    (List.range g.heads).map (fun h =>
      (List.range g.secs).map (fun s =>
        mkSector (imageStream recs) ((c * g.heads + h) * g.secs + s)))))

/-- Modelled from the spec: `DiskInfo.buildDiskFromFiles` (implementation
missing from the tree).  The host scan is `none` on a read failure;
otherwise the build fails (returns `none`) when a name exceeds the
maximum LFN length or no standard geometry can hold the directory region
and content; on success the whole image is assembled at once. -/
def buildDiskFromFiles (scan : Option (List HostFile)) : Option DiskImage :=
  match scan with
  | none => none
  | some recs =>
    if recs.all (fun f => decide (f.name.length ≤ 255)) then
      match stdGeometries.find? (fun g => fitsGeometry g recs) with
      | some g => some (assembleImage g recs)
      | none => none
    else none

/-- The 8.3 validity rules as the specification states them, for the
refinement theorem about `needsLFN`: the special entries dot and
dot-dot, or base at most 8, extension at most 3, only DOS-legal
characters (hence uppercase-only and space-free), and at most one dot. -/
def satisfies83Rules (name : List Nat) : Prop :=
  name = [46] ∨ name = [46, 46] ∨
  ((baseOf name).length ≤ 8 ∧ (extOf name).length ≤ 3 ∧
   (∀ c ∈ baseOf name ++ extOf name, isLegalDOSChar c = true) ∧
   name.countP (fun c => c == 46) ≤ 1)

/-- The checksum fold agrees with the plain iteration for every starting
accumulator. -/
theorem foldl_checksumStep_eq_run (l : List Nat) :
    ∀ s : Nat, l.foldl checksumStep s = checksumRun s l := by
  induction l with
  | nil => intro s; rfl
  | cons b bs ih => intro s; simp [List.foldl, checksumRun, ih]

/-- C2: `buildLFNChecksum` iterates
`sum = (((sum & 1) << 7) + (sum >> 1) + byte) & 0xFF` from 0 once per
byte of the 11-byte padded short-name form (uppercase base space-padded
to 8 plus extension space-padded to 3, not the raw input); it is a pure
function of those 11 bytes, so identical short names yield identical
checksums, and the checksum of "A TALE O.TXT" is 127. -/
theorem buildLFNChecksum_spec :
    (∀ name, buildLFNChecksum name = checksumRun 0 (shortName11 name)) ∧
    buildLFNChecksum nmATALEO = 127 ∧
    (∀ n1 n2, shortName11 n1 = shortName11 n2 →
      buildLFNChecksum n1 = buildLFNChecksum n2) := by
  refine ⟨fun name => foldl_checksumStep_eq_run _ 0, by decide, fun n1 n2 h => ?_⟩
  simp [buildLFNChecksum, h]

/-- Witness for C2 at concrete inputs. -/
theorem buildLFNChecksum_spec_witness :
    shortName11 nmTESTTXT = shortName11 nmTESTTXT ∧
    buildLFNChecksum nmTESTTXT = buildLFNChecksum nmTESTTXT :=
  ⟨rfl, buildLFNChecksum_spec.2.2 nmTESTTXT nmTESTTXT rfl⟩

/-- C10: `buildLFNChecksum` is total on arbitrary inputs (it is a Lean
function) and always returns a single byte, between 0 and 255. -/
theorem buildLFNChecksum_byte (name : List Nat) :
    buildLFNChecksum name ≤ 255 := by
  have key : ∀ (l : List Nat) (s : Nat), s ≤ 255 →
      l.foldl checksumStep s ≤ 255 := by
    intro l
    induction l with
    | nil => intro s hs; simpa using hs
    | cons b bs ih =>
      intro s hs
      refine ih _ ?_
      have hlt : checksumStep s b < 256 := Nat.mod_lt _ (by omega)
      omega
  exact key _ 0 (by omega)

/-- The empty name never needs an LFN. -/
theorem needsLFN_nil : needsLFN [] = false := by decide

/-- C3: `getLFNEntryCount` is 0 when `needsLFN` is false and otherwise
equals `ceil(length / 13)` over the UCS-2 code units of the full long
name (characterized by `13 (N - 1) < length ≤ 13 N`); the test-suite
lengths 13, 14, 16, 24, 26, 27 yield 1, 2, 2, 2, 2, 3 entries. -/
theorem getLFNEntryCount_spec :
    (∀ name, getLFNEntryCount name =
      if needsLFN name then (name.length + 12) / 13 else 0) ∧
    (∀ name, needsLFN name = true →
      13 * (getLFNEntryCount name - 1) < name.length ∧
      name.length ≤ 13 * getLFNEntryCount name) ∧
    (getLFNEntryCount nmFILETXT = 0 ∧ getLFNEntryCount nmDigits83 = 0 ∧
     getLFNEntryCount nmDigits13 = 1 ∧ getLFNEntryCount nmLongfilename = 2 ∧
     getLFNEntryCount nmATale = 2 ∧ getLFNEntryCount nmDigits14 = 2 ∧
     getLFNEntryCount nmDigits26 = 2 ∧ getLFNEntryCount nmDigits27 = 3) := by
  refine ⟨fun name => rfl, fun name h => ?_, by decide⟩
  have hval : getLFNEntryCount name = (name.length + 12) / 13 := by
    simp [getLFNEntryCount, h]
  have hne : name ≠ [] := by
    intro e
    rw [e, needsLFN_nil] at h
    exact Bool.false_ne_true h
  have hL : 0 < name.length := List.length_pos.mpr hne
  rw [hval]
  omega

/-- Witness for C3 at a concrete input. -/
theorem getLFNEntryCount_spec_witness :
    needsLFN nmATale = true ∧
    (13 * (getLFNEntryCount nmATale - 1) < nmATale.length ∧
     nmATale.length ≤ 13 * getLFNEntryCount nmATale) :=
  ⟨by decide, getLFNEntryCount_spec.2.1 nmATale (by decide)⟩

/-- C4: `needsLFN` is false exactly on the names satisfying all 8.3
rules (including the special entries dot and dot-dot) and true whenever
any rule is violated; all 15 concrete test-suite cases hold. -/
theorem needsLFN_spec :
    (∀ name, needsLFN name = false ↔ satisfies83Rules name) ∧
    (needsLFN nmFILETXT = false ∧ needsLFN nmREADMEMD = false ∧
     needsLFN nmDigits83 = false ∧ needsLFN nmA = false ∧
     needsLFN nmDot = false ∧ needsLFN nmDotDot = false ∧
     needsLFN nmTEST = false ∧
     needsLFN nmLongfilename = true ∧ needsLFN nmFileText = true ∧
     needsLFN nmMyFile = true ∧ needsLFN nmFileUpperExt = true ∧
     needsLFN nmUpperFileLowerExt = true ∧ needsLFN nmATale = true ∧
     needsLFN nmTestPlus = true ∧ needsLFN nmFileBracket = true) := by
  constructor
  · intro name
    by_cases hsp : name = [46] ∨ name = [46, 46]
    · simp only [needsLFN, if_pos hsp, satisfies83Rules]
      rcases hsp with h | h
      · simp [h]
      · simp [h]
    · simp only [needsLFN, if_neg hsp, satisfies83Rules]
      rw [not_or] at hsp
      simp only [Bool.not_eq_false', Bool.and_eq_true, decide_eq_true_iff,
        List.all_eq_true, hsp.1, hsp.2, false_or]
      tauto
  · decide

/-- Witness for C4 at a concrete input. -/
theorem needsLFN_spec_witness :
    satisfies83Rules nmFILETXT ∧ needsLFN nmFILETXT = false :=
  ⟨by simp only [satisfies83Rules]; decide,
   (needsLFN_spec.1 nmFILETXT).mpr (by simp only [satisfies83Rules]; decide)⟩

/-- Each LFN entry is exactly 32 bytes. -/
theorem lfnEntry32_length (b0 cks : Nat) (c : List Nat) :
    (lfnEntry32 b0 cks c).length = 32 := by
  simp [lfnEntry32]

/-- Reading one byte of an LFN entry gives the layout-table field. -/
theorem lfnEntry32_getD (b0 cks : Nat) (c : List Nat) (i : Nat) (hi : i < 32) :
    (lfnEntry32 b0 cks c).getD i 0 = entryByteAt b0 cks c i := by
  rw [List.getD_eq_getElem _ _ (by simpa [lfnEntry32] using hi)]
  simp [lfnEntry32]

/-- There is one LFN entry per 13-code-unit chunk. -/
theorem lfnEntries_length (ln sn : List Nat) :
    (lfnEntries ln sn).length = chunkCount ln := by
  simp [lfnEntries]

/-- Every member of the entry list is 32 bytes long. -/
theorem mem_lfnEntries_length (ln sn : List Nat) :
    ∀ l ∈ lfnEntries ln sn, l.length = 32 := by
  intro l hl
  obtain ⟨k, _, rfl⟩ := List.mem_map.mp hl
  exact lfnEntry32_length _ _ _

/-- The `k`-th written entry carries the descending ordinal and the tail
chunk in first position. -/
theorem lfnEntries_getD (ln sn : List Nat) (k : Nat) (hk : k < chunkCount ln) :
    (lfnEntries ln sn).getD k [] =
      lfnEntry32 ((if k = 0 then 64 else 0) + (chunkCount ln - k))
        (buildLFNChecksum sn) (chunkAt ln (chunkCount ln - 1 - k)) := by
  rw [List.getD_eq_getElem _ _ (by simpa [lfnEntries] using hk)]
  simp [lfnEntries]

/-- The flattened entry run is `32 × chunkCount` bytes. -/
theorem flatten_lfnEntries_length (ln sn : List Nat) :
    ((lfnEntries ln sn).flatten).length = 32 * chunkCount ln := by
  rw [List.length_flatten]
  have h : (lfnEntries ln sn).map List.length =
      List.replicate (chunkCount ln) 32 := by
    refine List.eq_replicate_iff.mpr ⟨by simp [lfnEntries_length], ?_⟩
    intro b hb
    obtain ⟨l, hl, rfl⟩ := List.mem_map.mp hb
    exact mem_lfnEntries_length ln sn l hl
  rw [h, List.sum_replicate, smul_eq_mul]
  omega

/-- Indexing into a flattening of 32-byte blocks. -/
theorem flatten_getD32 :
    ∀ ls : List (List Nat), (∀ l ∈ ls, l.length = 32) →
    ∀ k j : Nat, k < ls.length → j < 32 →
    ls.flatten.getD (32 * k + j) 0 = (ls.getD k []).getD j 0 := by
  intro ls
  induction ls with
  | nil =>
    intro _ k j hk _
    simp at hk
  | cons l ls ih =>
    intro hlen k j hk hj
    have hl : l.length = 32 := hlen l (by simp)
    cases k with
    | zero =>
      simp only [List.flatten_cons, Nat.mul_zero, Nat.zero_add,
        List.getD_cons_zero]
      exact List.getD_append _ _ _ _ (by omega)
    | succ k =>
      simp only [List.flatten_cons, List.getD_cons_succ]
      rw [List.getD_append_right _ _ _ _ (by omega)]
      have he : 32 * (k + 1) + j - l.length = 32 * k + j := by omega
      rw [he]
      exact ih (fun x hx => hlen x (by simp [hx])) k j (by simpa using hk) hj

/-- Reading the written region of the buffer sees the flattened entries. -/
theorem buildLFNEntries_getD (buf ln sn : List Nat) (offset m : Nat)
    (hoff : offset ≤ buf.length)
    (hm : m < ((lfnEntries ln sn).flatten).length) :
    (buildLFNEntries buf offset ln sn).1.getD (offset + m) 0 =
      ((lfnEntries ln sn).flatten).getD m 0 := by
  have htk : (buf.take offset).length = offset := by
    simp [List.length_take]
    omega
  simp only [buildLFNEntries]
  rw [List.getD_append _ _ _ _ (by rw [List.length_append, htk]; omega)]
  rw [List.getD_append_right _ _ _ _ (by rw [htk]; omega)]
  rw [htk, Nat.add_sub_cancel_left]

/-- One byte of the written region, through chunk and ordinal. -/
theorem buildLFNEntries_byte (buf ln sn : List Nat) (offset k j : Nat)
    (hoff : offset ≤ buf.length) (hk : k < chunkCount ln) (hj : j < 32) :
    (buildLFNEntries buf offset ln sn).1.getD (offset + (32 * k + j)) 0 =
      entryByteAt ((if k = 0 then 64 else 0) + (chunkCount ln - k))
        (buildLFNChecksum sn) (chunkAt ln (chunkCount ln - 1 - k)) j := by
  rw [buildLFNEntries_getD buf ln sn offset (32 * k + j) hoff
    (by rw [flatten_lfnEntries_length]; omega)]
  rw [flatten_getD32 _ (mem_lfnEntries_length ln sn) k j
    (by rw [lfnEntries_length]; exact hk) hj]
  rw [lfnEntries_getD ln sn k hk]
  exact lfnEntry32_getD _ _ _ _ hj

/-- The padded long name fills the chunks exactly. -/
theorem paddedName_length (name : List Nat) :
    (paddedName name).length = 13 * chunkCount name := by
  simp only [paddedName, chunkCount]
  split
  · omega
  · simp only [List.length_append, List.length_cons, List.length_replicate,
      chunkCount]
    omega

/-- Every chunk of the padded name is 13 code units. -/
theorem chunkAt_length (name : List Nat) (k : Nat) (hk : k < chunkCount name) :
    (chunkAt name k).length = 13 := by
  simp only [chunkAt, List.length_take, List.length_drop, paddedName_length]
  omega

/-- Chunk slots read the padded name. -/
theorem chunkAt_getD (name : List Nat) (k u : Nat) (hk : k < chunkCount name)
    (hu : u < 13) :
    (chunkAt name k).getD u 0 = (paddedName name).getD (13 * k + u) 0 := by
  rw [List.getD_eq_getElem _ _ (by rw [chunkAt_length name k hk]; omega),
    List.getD_eq_getElem _ _ (by rw [paddedName_length]; omega)]
  simp [chunkAt]

/-- Below the name length, the padded name is the name. -/
theorem paddedName_getD_lt (name : List Nat) (i : Nat) (hi : i < name.length) :
    (paddedName name).getD i 0 = name.getD i 0 := by
  unfold paddedName
  split
  · rfl
  · exact List.getD_append _ _ _ _ hi

/-- When the length is not a multiple of 13, the first unused slot holds
the 0x0000 terminator. -/
theorem paddedName_getD_terminator (name : List Nat)
    (h : name.length % 13 ≠ 0) :
    (paddedName name).getD name.length 0 = 0 := by
  unfold paddedName
  rw [if_neg h, List.getD_append_right _ _ _ _ (Nat.le_refl _)]
  simp

/-- Beyond the terminator, every unused slot holds 0xFFFF. -/
theorem paddedName_getD_fill (name : List Nat) (j : Nat)
    (h : name.length % 13 ≠ 0) (h1 : name.length < j)
    (h2 : j < 13 * chunkCount name) :
    (paddedName name).getD j 0 = 65535 := by
  unfold paddedName
  rw [if_neg h, List.getD_append_right _ _ _ _ (by omega)]
  have he : j - name.length = (j - name.length - 1) + 1 := by omega
  rw [he, List.getD_cons_succ]
  rw [List.getD_eq_getElem _ _ (by
    simp only [List.length_replicate]
    unfold chunkCount at h2 ⊢
    omega)]
  simp

/-- The byte offset of a UCS-2 slot stays inside the 32-byte entry. -/
theorem ucs2Off_lt (u : Nat) (hu : u < 13) : ucs2Off u + 1 < 32 := by
  unfold ucs2Off
  split_ifs <;> omega

/-- The two bytes at a slot offset are the little-endian halves of the
chunk's code unit there. -/
theorem entryByteAt_slot (b0 cks : Nat) (c : List Nat) (u : Nat)
    (hu : u < 13) :
    entryByteAt b0 cks c (ucs2Off u) = (c.getD u 0) % 256 ∧
    entryByteAt b0 cks c (ucs2Off u + 1) = (c.getD u 0) / 256 := by
  interval_cases u <;> exact ⟨rfl, rfl⟩

/-- C7: `getTotalDirEntries` sums, per record, 1 when the volume-label
bit 0x08 is set or the name is 8.3-clean, and `getLFNEntryCount + 1`
otherwise (a volume label never contributes LFN entries whatever its
name); the test-suite record lists total 8, 3 and 3 entries. -/
theorem getTotalDirEntries_spec :
    (∀ recs : List FileRecord, getTotalDirEntries recs =
      (recs.map (fun r =>
        if r.attr &&& 8 ≠ 0 ∨ needsLFN r.name = false then 1
        else getLFNEntryCount r.name + 1)).sum) ∧
    getTotalDirEntries [FileRecord.mk nmFILETXT 0, FileRecord.mk nmLongfilename 0,
      FileRecord.mk nmSHORTDAT 0, FileRecord.mk nmMyDocument 0] = 8 ∧
    getTotalDirEntries [FileRecord.mk nmMYLABEL 8, FileRecord.mk nmMyFile 0] = 3 ∧
    getTotalDirEntries [FileRecord.mk nmFILE1 0, FileRecord.mk nmFILE2 0,
      FileRecord.mk nmFILE3 0] = 3 := by
  refine ⟨fun recs => ?_, by decide, by decide, by decide⟩
  induction recs with
  | nil => rfl
  | cons r rs ih =>
    by_cases h1 : r.attr &&& 8 ≠ 0
    · simp [getTotalDirEntries, dirEntriesFor, ih, h1]
    · cases h2 : needsLFN r.name with
      | false => simp [getTotalDirEntries, dirEntriesFor, ih, h1, h2]
      | true => simp [getTotalDirEntries, dirEntriesFor, ih, h1, h2]

/-- C1: `buildLFNEntries` reports `32 × chunkCount` bytes written; the
entry written first (at `offset`) carries ordinal `chunkCount` with bit
0x40 set; the `k`-th written entry carries the strictly decreasing
ordinal `chunkCount - k` with bit 0x40 clear for `k > 0`, down to
ordinal 1; and the attribute byte at offset `11 + 32 k` of every entry
is 0x0F. -/
theorem buildLFNEntries_layout (buf ln sn : List Nat) (offset k : Nat)
    (hoff : offset ≤ buf.length) (hN : chunkCount ln ≤ 63)
    (hk : k < chunkCount ln) :
    (buildLFNEntries buf offset ln sn).2 = 32 * chunkCount ln ∧
    ((buildLFNEntries buf offset ln sn).1.getD (offset + (32 * k + 0)) 0) % 64 =
      chunkCount ln - k ∧
    ((buildLFNEntries buf offset ln sn).1.getD (offset + (32 * k + 0)) 0) / 64 =
      (if k = 0 then 1 else 0) ∧
    (buildLFNEntries buf offset ln sn).1.getD (offset + (32 * k + 11)) 0 = 15 := by
  have hb0 := buildLFNEntries_byte buf ln sn offset k 0 hoff hk (by omega)
  have hb11 := buildLFNEntries_byte buf ln sn offset k 11 hoff hk (by omega)
  have hb0v : (buildLFNEntries buf offset ln sn).1.getD (offset + (32 * k + 0)) 0 =
      (if k = 0 then 64 else 0) + (chunkCount ln - k) := by rw [hb0]; rfl
  refine ⟨by simp only [buildLFNEntries]; exact flatten_lfnEntries_length ln sn,
    ?_, ?_, ?_⟩
  · rw [hb0v]
    by_cases hk0 : k = 0 <;> simp only [hk0, if_pos, if_neg, ite_true, ite_false] <;> omega
  · rw [hb0v]
    by_cases hk0 : k = 0 <;> simp only [hk0, if_pos, if_neg, ite_true, ite_false] <;> omega
  · rw [hb11]
    rfl

/-- Witness for C1 at the test suite's two-entry example. -/
theorem buildLFNEntries_layout_witness :
    (buildLFNEntries [] 0 nmATale nmATALEO).2 = 32 * chunkCount nmATale ∧
    ((buildLFNEntries [] 0 nmATale nmATALEO).1.getD (0 + (32 * 0 + 0)) 0) % 64 =
      chunkCount nmATale - 0 ∧
    ((buildLFNEntries [] 0 nmATale nmATALEO).1.getD (0 + (32 * 0 + 0)) 0) / 64 =
      (if (0 : Nat) = 0 then 1 else 0) ∧
    (buildLFNEntries [] 0 nmATale nmATALEO).1.getD (0 + (32 * 0 + 11)) 0 = 15 :=
  buildLFNEntries_layout [] nmATale nmATALEO 0 0 (by decide) (by decide) (by decide)

/-- C5: the checksum byte at offset `13 + 32 k` of every emitted LFN
entry of one file equals `buildLFNChecksum shortName`, hence is the same
across the whole chain. -/
theorem buildLFNEntries_checksum_uniform (buf ln sn : List Nat)
    (offset k : Nat) (hoff : offset ≤ buf.length) (hk : k < chunkCount ln) :
    (buildLFNEntries buf offset ln sn).1.getD (offset + (32 * k + 13)) 0 =
      buildLFNChecksum sn := by
  rw [buildLFNEntries_byte buf ln sn offset k 13 hoff hk (by omega)]
  rfl

/-- Witness for C5 at the test suite's two-entry example. -/
theorem buildLFNEntries_checksum_uniform_witness :
    (buildLFNEntries [] 0 nmATale nmATALEO).1.getD (0 + (32 * 1 + 13)) 0 =
      buildLFNChecksum nmATALEO :=
  buildLFNEntries_checksum_uniform [] nmATale nmATALEO 0 1 (by decide) (by decide)

/-- C6: for an ASCII long name, the entry holding the first 13 code
units (ordinal 1, the last written) stores the first five characters as
little-endian byte pairs `(charCode, 0x00)` at entry offsets
(1,2), (3,4), (5,6), (7,8), (9,10). -/
theorem buildLFNEntries_ascii_encoding (buf ln sn : List Nat)
    (offset u : Nat) (hoff : offset ≤ buf.length) (hu : u < 5)
    (hlen : 5 ≤ ln.length) (hascii : ∀ c ∈ ln, c < 128) :
    (buildLFNEntries buf offset ln sn).1.getD
      (offset + (32 * (chunkCount ln - 1) + (1 + 2 * u))) 0 = ln.getD u 0 ∧
    (buildLFNEntries buf offset ln sn).1.getD
      (offset + (32 * (chunkCount ln - 1) + (1 + 2 * u + 1))) 0 = 0 := by
  have hcc : 0 < chunkCount ln := by unfold chunkCount; omega
  have hk : chunkCount ln - 1 < chunkCount ln := by omega
  have h1 := buildLFNEntries_byte buf ln sn offset (chunkCount ln - 1)
    (1 + 2 * u) hoff hk (by omega)
  have h2 := buildLFNEntries_byte buf ln sn offset (chunkCount ln - 1)
    (1 + 2 * u + 1) hoff hk (by omega)
  have hidx : chunkCount ln - 1 - (chunkCount ln - 1) = 0 := by omega
  rw [hidx] at h1 h2
  have ho : ucs2Off u = 1 + 2 * u := by simp [ucs2Off, hu]
  have hslot := entryByteAt_slot
    ((if chunkCount ln - 1 = 0 then 64 else 0) +
      (chunkCount ln - (chunkCount ln - 1)))
    (buildLFNChecksum sn) (chunkAt ln 0) u (by omega)
  rw [ho] at hslot
  have hcv : (chunkAt ln 0).getD u 0 = ln.getD u 0 := by
    rw [chunkAt_getD ln 0 u hcc (by omega)]
    simpa using paddedName_getD_lt ln u (by omega)
  have hmem : ln.getD u 0 < 128 := by
    have hm : ln.getD u 0 ∈ ln := by
      rw [List.getD_eq_getElem _ _ (by omega)]
      exact List.getElem_mem _
    exact hascii _ hm
  constructor
  · rw [h1, hslot.1, hcv]
    exact Nat.mod_eq_of_lt (by omega)
  · rw [h2, hslot.2, hcv]
    exact Nat.div_eq_of_lt (by omega)

/-- Witness for C6 at the test suite's encoding example. -/
theorem buildLFNEntries_ascii_encoding_witness :
    (buildLFNEntries [] 0 nmTestTxt nmTESTTXT).1.getD
      (0 + (32 * (chunkCount nmTestTxt - 1) + (1 + 2 * 0))) 0 =
      nmTestTxt.getD 0 0 ∧
    (buildLFNEntries [] 0 nmTestTxt nmTESTTXT).1.getD
      (0 + (32 * (chunkCount nmTestTxt - 1) + (1 + 2 * 0 + 1))) 0 = 0 :=
  buildLFNEntries_ascii_encoding [] nmTestTxt nmTESTTXT 0 0 (by decide)
    (by decide) (by decide) (by decide)

/-- C8: when the long name's length is not a multiple of 13, the
first-written entry (which holds the final, partially filled chunk)
stores the 0x0000 terminator in the first unused UCS-2 slot and 0xFFFF
in every remaining unused slot. -/
theorem buildLFNEntries_tail_padding (buf ln sn : List Nat)
    (offset u : Nat) (hoff : offset ≤ buf.length)
    (hr : ln.length % 13 ≠ 0) (hu1 : ln.length % 13 ≤ u) (hu2 : u < 13) :
    (buildLFNEntries buf offset ln sn).1.getD
      (offset + (32 * 0 + ucs2Off u)) 0 =
      (if u = ln.length % 13 then 0 else 255) ∧
    (buildLFNEntries buf offset ln sn).1.getD
      (offset + (32 * 0 + (ucs2Off u + 1))) 0 =
      (if u = ln.length % 13 then 0 else 255) := by
  have hlen : 0 < ln.length := by omega
  have hcc : 0 < chunkCount ln := by unfold chunkCount; omega
  have hub := ucs2Off_lt u hu2
  have h1 := buildLFNEntries_byte buf ln sn offset 0 (ucs2Off u) hoff hcc
    (by omega)
  have h2 := buildLFNEntries_byte buf ln sn offset 0 (ucs2Off u + 1) hoff hcc
    hub
  have hslot := entryByteAt_slot
    ((if (0 : Nat) = 0 then 64 else 0) + (chunkCount ln - 0))
    (buildLFNChecksum sn) (chunkAt ln (chunkCount ln - 1 - 0)) u hu2
  have hchunk : (chunkAt ln (chunkCount ln - 1 - 0)).getD u 0 =
      (paddedName ln).getD (13 * (chunkCount ln - 1) + u) 0 :=
    chunkAt_getD ln (chunkCount ln - 1) u (by omega) hu2
  have hval : (chunkAt ln (chunkCount ln - 1 - 0)).getD u 0 =
      (if u = ln.length % 13 then 0 else 65535) := by
    rw [hchunk]
    by_cases ht : u = ln.length % 13
    · rw [if_pos ht]
      have hidx : 13 * (chunkCount ln - 1) + u = ln.length := by
        unfold chunkCount
        omega
      rw [hidx]
      exact paddedName_getD_terminator ln hr
    · rw [if_neg ht]
      refine paddedName_getD_fill ln _ hr ?_ ?_
      · unfold chunkCount
        omega
      · unfold chunkCount
        omega
  constructor
  · rw [h1, hslot.1, hval]
    by_cases ht : u = ln.length % 13 <;> simp [ht]
  · rw [h2, hslot.2, hval]
    by_cases ht : u = ln.length % 13 <;> simp [ht]

/-- Witness for C8 at the test suite's 8-character example: slot 8 holds
the terminator, slot 9 holds 0xFFFF filler. -/
theorem buildLFNEntries_tail_padding_witness :
    ((buildLFNEntries [] 0 nmTestTxt nmTESTTXT).1.getD
      (0 + (32 * 0 + ucs2Off 8)) 0 =
      (if (8 : Nat) = nmTestTxt.length % 13 then 0 else 255) ∧
    (buildLFNEntries [] 0 nmTestTxt nmTESTTXT).1.getD
      (0 + (32 * 0 + (ucs2Off 8 + 1))) 0 =
      (if (8 : Nat) = nmTestTxt.length % 13 then 0 else 255)) ∧
    ((buildLFNEntries [] 0 nmTestTxt nmTESTTXT).1.getD
      (0 + (32 * 0 + ucs2Off 9)) 0 =
      (if (9 : Nat) = nmTestTxt.length % 13 then 0 else 255) ∧
    (buildLFNEntries [] 0 nmTestTxt nmTESTTXT).1.getD
      (0 + (32 * 0 + (ucs2Off 9 + 1))) 0 =
      (if (9 : Nat) = nmTestTxt.length % 13 then 0 else 255)) :=
  ⟨buildLFNEntries_tail_padding [] nmTestTxt nmTESTTXT 0 8 (by decide)
      (by decide) (by decide) (by decide),
   buildLFNEntries_tail_padding [] nmTestTxt nmTESTTXT 0 9 (by decide)
      (by decide) (by decide) (by decide)⟩

/-- C9: `buildDiskFromFiles` either fails as a whole (returns `none`, in
particular on a host-read failure or when no geometry fits) or returns a
complete image with a non-empty cylinder sequence; no partial image is
ever produced. -/
theorem buildDiskFromFiles_total (scan : Option (List HostFile)) :
    buildDiskFromFiles scan = none ∨
    ∃ img, buildDiskFromFiles scan = some img ∧ img.cylinders ≠ [] := by
  cases scan with
  | none => exact Or.inl rfl
  | some recs =>
    simp only [buildDiskFromFiles]
    by_cases hall : recs.all (fun f => decide (f.name.length ≤ 255))
    · rw [if_pos hall]
      rcases hfind : stdGeometries.find? (fun g => fitsGeometry g recs) with
        _ | g
      · exact Or.inl rfl
      · refine Or.inr ⟨assembleImage g recs, rfl, fun hnil => ?_⟩
        have hg : g ∈ stdGeometries := List.mem_of_find?_eq_some hfind
        have hcyl : 0 < g.cyls := by
          have hy : ∀ x ∈ stdGeometries, 0 < x.cyls := by decide
          exact hy g hg
        have hlenc : (assembleImage g recs).cylinders.length = g.cyls := by
          simp [assembleImage]
        rw [hnil] at hlenc
        simp at hlenc
        omega
    · rw [if_neg hall]
      exact Or.inl rfl

end LFN
